import Mathlib

/-!
Verification development for the Pepsico-man repository.

Shallow embedding conventions:
* `float` scalars are modelled as exact rationals (`ℚ`); float arithmetic is
  idealized as exact rational arithmetic, and float literals are modelled by
  their decimal values.  `glm::pi<float>()` is modelled by the exact rational
  value of that float constant.
* Machine state that C++ mutates in place is threaded explicitly.
* The C++ `rand()` stream is modelled as a function `ℕ → ℕ` together with an
  index into the stream; the unbounded rejection-sampling loop in
  `World::deserialize` is given explicit fuel and returns `none` when the fuel
  runs out (the surrogate for nontermination).
-/

namespace PepsiMan

/-- A `glm::vec3` over exact rationals. -/
structure Vec3 where
  x : ℚ
  y : ℚ
  z : ℚ
deriving DecidableEq, Repr, Inhabited

def vadd (a b : Vec3) : Vec3 := ⟨a.x + b.x, a.y + b.y, a.z + b.z⟩

def vsub (a b : Vec3) : Vec3 := ⟨a.x - b.x, a.y - b.y, a.z - b.z⟩

def vneg (a : Vec3) : Vec3 := ⟨-a.x, -a.y, -a.z⟩

/-- `vec3 * scalar` as used throughout the controller. -/
def vscale (a : Vec3) (s : ℚ) : Vec3 := ⟨a.x * s, a.y * s, a.z * s⟩

/-- `our::Transform` (position / rotation / scale), the `localTransform` of an
entity. -/
structure Transform where
  position : Vec3
  rotation : Vec3
  scale : Vec3
deriving DecidableEq, Repr, Inhabited

/-- The exact rational value of `glm::pi<float>()` (the `float` nearest π). -/
def piF : ℚ := 13176795 / 4194304

/-- `glm::half_pi<float>()`. -/
def halfPiF : ℚ := piF / 2

/-- `glm::two_pi<float>()`. -/
def twoPiF : ℚ := 2 * piF

/-- `glm::clamp(x, lo, hi) = min(max(x, lo), hi)`. -/
def clampQ (x lo hi : ℚ) : ℚ := min (max x lo) hi

/-- `glm::wrapAngle(x) = abs(mod(x, two_pi))` with `mod(x, y) = x - y*floor(x/y)`
(gtx/fast_trigonometry), used on the camera yaw in
`FreeCameraControllerSystem::update`. -/
def wrapAngle (x : ℚ) : ℚ := |x - twoPiF * ⌊x / twoPiF⌋|

/-- The two sequential pitch clamps of `FreeCameraControllerSystem::update`:
`if (rotation.x < -half_pi*0.99) rotation.x = -half_pi*0.99;`
`if (rotation.x >  half_pi*0.99) rotation.x =  half_pi*0.99;`. -/
def clampPitch (x : ℚ) : ℚ :=
  let m := halfPiF * (99 / 100)
  let x1 := if x < -m then -m else x
  if x1 > m then m else x1

/-- `our::JumpState` from the free-camera controller header. -/
inductive JumpState where
  | JUMPING
  | FALLING
  | GROUNDED
deriving DecidableEq, Repr

/-- `our::SlideState` from the free-camera controller header. -/
inductive SlideState where
  | Slided
  | NORMAL
deriving DecidableEq, Repr

/-- Modelled from the spec: the declaration of `our::MotionState` is not among
the analyzed sources; the controller only ever names `RUNNING`, so `IDLE`
stands for any other motion state. -/
inductive MotionState where
  | RUNNING
  | IDLE
deriving DecidableEq, Repr

/-- `our::CameraComponent` projected to the field the controller touches. -/
structure CameraComponent where
  fovY : ℚ
deriving DecidableEq, Repr

/-- `our::FreeCameraControllerComponent` projected to the fields the controller
reads. -/
structure ControllerComponent where
  fovSensitivity : ℚ
  positionSensitivity : Vec3
deriving DecidableEq, Repr

/-- `our::PlayerComponent` projected to the field the controller reads. -/
structure PlayerComponent where
  speed : ℚ
deriving DecidableEq, Repr

/-- The member state of a `FreeCameraControllerSystem` instance. -/
structure CtrlState where
  mouse_locked : Bool
  slideTime : ℚ
  jumpState : JumpState
  slideState : SlideState
deriving DecidableEq, Repr

/-- The per-call inputs of `FreeCameraControllerSystem::update`: keyboard and
mouse state, scroll offset, `deltaTime`, and `app->levelState`.

The three `camera*` fields are modelled from the spec: they are the direction
vectors obtained from `Transform::toMat4` products (`toMat4` and the matrix
library are not among the analyzed sources), so the update is parameterized by
their values.  The analogous `player*` vectors are computed by the C++ code but
never used, so they are omitted. -/
structure Input where
  mouse1 : Bool
  keyW : Bool
  keyS : Bool
  keyQ : Bool
  keyE : Bool
  keySpace : Bool
  keyUp : Bool
  keyDown : Bool
  keyEnter : Bool
  keyD : Bool
  keyRight : Bool
  keyA : Bool
  keyLeft : Bool
  scrollY : ℚ
  deltaTime : ℚ
  levelState : ℤ
  cameraFront : Vec3
  cameraUp : Vec3
  cameraRight : Vec3
deriving DecidableEq, Repr

/-- Everything `FreeCameraControllerSystem::update` reads and writes once the
required components have been found: the controller member state, the camera
entity's transform, the camera's field of view, the player entity's transform,
and the two by-reference arguments `motionState` and `isSlided`. -/
structure Frame where
  ctrl : CtrlState
  camT : Transform
  fov : ℚ
  playerT : Transform
  motion : MotionState
  isSlided : Bool
deriving DecidableEq, Repr

/-- The slide entry offset: `playerRotation.x -= 90; playerPosition.z -= 1;
playerPosition.y += 1;`. -/
def slideOffset (t : Transform) : Transform :=
  { t with
    rotation := { t.rotation with x := t.rotation.x - 90 },
    position := { t.position with z := t.position.z - 1, y := t.position.y + 1 } }

/-- The slide exit offset: `playerPosition.y -= 1; playerPosition.z += 1;
playerRotation.x += 90;`. -/
def slideRevert (t : Transform) : Transform :=
  { t with
    rotation := { t.rotation with x := t.rotation.x + 90 },
    position := { t.position with z := t.position.z + 1, y := t.position.y - 1 } }

/-- The body of `FreeCameraControllerSystem::update` after the
camera/controller/player components have been found, translated statement by
statement.  `wlevel` is `world->level`.  In the C++ code `position`,
`cameraPosition` (camera entity) and `playerPosition` (player entity) are
references; here the camera transform and player transform are separate fields
of `Frame` (the game scene keeps them on distinct entities). -/
def updateCore (inp : Input) (cc : ControllerComponent) (pc : PlayerComponent)
    (wlevel : ℤ) (f : Frame) : Frame :=
  let dt := inp.deltaTime
  -- mouse lock / unlock
  let mouseLocked :=
    if inp.mouse1 ∧ f.ctrl.mouse_locked = false then true
    else if ¬(inp.mouse1 = true) ∧ f.ctrl.mouse_locked then false
    else f.ctrl.mouse_locked
  -- pitch clamp and yaw wrap
  let rx := clampPitch f.camT.rotation.x
  let ry := wrapAngle f.camT.rotation.y
  -- fov update from the scroll wheel, clamped to [0.01*pi, 0.99*pi]
  let fov := clampQ (f.fov + inp.scrollY * cc.fovSensitivity)
      (piF * (1 / 100)) (piF * (99 / 100))
  let sens := cc.positionSensitivity
  -- WASD/QE movement of the camera position
  let p0 := f.camT.position
  let p1 := if inp.keyW then vadd p0 (vscale inp.cameraFront (dt * sens.z)) else p0
  let p2 := if inp.keyS then vsub p1 (vscale inp.cameraFront (dt * sens.z)) else p1
  let p3 := if inp.keyQ then vadd p2 (vscale inp.cameraUp (dt * sens.y)) else p2
  let p4 := if inp.keyE then vadd p3 (vscale (vneg inp.cameraUp) (dt * sens.y)) else p3
  -- jump logic: jumpSpeed = 6, jumpMaxHeight = 4
  let startJump := ((inp.keySpace ∨ inp.keyUp) ∧ inp.levelState ≠ 3) ∧
      f.ctrl.jumpState = JumpState.GROUNDED ∧ f.ctrl.slideState = SlideState.NORMAL
  let p5 := if startJump then { p4 with y := p4.y + dt * 6 } else p4
  let js1 := if startJump then JumpState.JUMPING else f.ctrl.jumpState
  let js2 := if p5.y ≥ 4 then JumpState.FALLING
             else if p5.y ≤ 1 then JumpState.GROUNDED
             else js1
  let p6 := if js2 = JumpState.JUMPING then { p5 with y := p5.y + dt * 6 }
            else if js2 = JumpState.FALLING then { p5 with y := p5.y - dt * 6 }
            else { p5 with y := 1 }
  -- slide logic
  let startSlide := ((inp.keyS ∨ inp.keyDown) ∧ inp.levelState ≠ 3) ∧
      f.ctrl.slideState = SlideState.NORMAL ∧ js2 = JumpState.GROUNDED
  let q1 := if startSlide then slideOffset f.playerT else f.playerT
  let ss1 := if startSlide then SlideState.Slided else f.ctrl.slideState
  let stime1 := if startSlide then 0 else f.ctrl.slideTime
  let isS1 := if startSlide then true else f.isSlided
  let stime2 := if ss1 = SlideState.Slided then stime1 + dt else stime1
  let endSlide := ss1 = SlideState.Slided ∧ stime2 ≥ dt * 50
  let ss2 := if endSlide then SlideState.NORMAL else ss1
  let q2 := if endSlide then slideRevert q1 else q1
  let isS2 := if endSlide then false
              else if ss1 = SlideState.Slided then true else isS1
  -- start running on enter, move forward while running
  let motion2 := if inp.keyEnter then MotionState.RUNNING else f.motion
  let p7 := if motion2 = MotionState.RUNNING
            then vadd p6 (vscale inp.cameraFront (dt * 20)) else p6
  -- lateral movement, lane-clamped depending on world->level
  let p8 := if inp.keyD ∨ inp.keyRight then
      (if wlevel = 3 then
        (if p7.z < 5 then vsub p7 (vscale inp.cameraRight (dt * pc.speed)) else p7)
       else
        (if p7.z > -5 then vadd p7 (vscale inp.cameraRight (dt * pc.speed)) else p7))
    else p7
  let p9 := if inp.keyA ∨ inp.keyLeft then
      (if wlevel = 3 then
        (if p8.z > -5 then vadd p8 (vscale inp.cameraRight (dt * pc.speed)) else p8)
       else
        (if p8.z < 5 then vsub p8 (vscale inp.cameraRight (dt * pc.speed)) else p8))
    else p8
  { ctrl := { mouse_locked := mouseLocked, slideTime := stime2,
              jumpState := js2, slideState := ss2 },
    camT := { position := p9,
              rotation := ⟨rx, ry, f.camT.rotation.z⟩,
              scale := f.camT.scale },
    fov := fov,
    playerT := q2,
    motion := motion2,
    isSlided := isS2 }

/-- `our::Entity` projected to what the analyzed code touches: the local
transform, the parent pointer (entities are identified by their index in the
world's entity list, so the pointer is an optional index), and at most one
component of each kind the controller queries.  `isDup` is an observation tag
recording whether the entity was created by the duplicates loop of
`World::deserialize`; the C++ entity has no such field, and no code path reads
it. -/
structure Entity where
  localTransform : Transform
  parent : Option ℕ := none
  isDup : Bool := false
  camera : Option CameraComponent := none
  controller : Option ControllerComponent := none
  player : Option PlayerComponent := none
deriving DecidableEq, Repr, Inhabited

/-- `our::World` projected to the fields the controller reads. -/
structure CWorld where
  entities : List Entity
  level : ℤ
deriving DecidableEq, Repr

/-- The first search loop of `FreeCameraControllerSystem::update`: scan the
entities and stop at the first one holding both a `CameraComponent` and a
`FreeCameraControllerComponent`.  (The C++ loop leaves the last entity's
components in `camera`/`controller` when no entity has both; the combined
null-check then fails, because an entity with both would have triggered the
break.  So the guard passes exactly when such an entity exists, and the chosen
entity is the first one.) -/
def findFirst (p : Entity → Bool) : List Entity → Option ℕ
  | [] => none
  | e :: es => if p e then some 0 else (findFirst p es).map (· + 1)

def findCamCtrl (es : List Entity) : Option ℕ :=
  findFirst (fun e => e.camera.isSome && e.controller.isSome) es

/-- The second search loop: the first entity holding a `PlayerComponent`. -/
def findPlayer (es : List Entity) : Option ℕ :=
  findFirst (fun e => e.player.isSome) es

/-- `FreeCameraControllerSystem::update` in full: locate the camera/controller
entity and the player entity; if either is missing, return with nothing
changed; otherwise run the body on the located entities and write the results
back.  The result bundles the new controller member state, the new world, and
the by-reference arguments `motionState` and `isSlided`. -/
def update (sys : CtrlState) (w : CWorld) (inp : Input)
    (motion : MotionState) (isSlided : Bool) :
    CtrlState × CWorld × MotionState × Bool :=
  match findCamCtrl w.entities with
  | none => (sys, w, motion, isSlided)
  | some i =>
    match findPlayer w.entities with
    | none => (sys, w, motion, isSlided)
    | some j =>
      let camE := w.entities.getD i default
      let playerE := w.entities.getD j default
      let cc := camE.controller.getD ⟨0, ⟨0, 0, 0⟩⟩
      let cam := camE.camera.getD ⟨0⟩
      let pc := playerE.player.getD ⟨0⟩
      let f : Frame := { ctrl := sys, camT := camE.localTransform, fov := cam.fovY,
                         playerT := playerE.localTransform, motion := motion,
                         isSlided := isSlided }
      let f' := updateCore inp cc pc w.level f
      let es1 := w.entities.set i
        { camE with localTransform := f'.camT, camera := some ⟨f'.fov⟩ }
      let es2 := es1.set j
        { (es1.getD j default) with localTransform := f'.playerT }
      (f'.ctrl, { w with entities := es2 }, f'.motion, f'.isSlided)

/-! ### `World::deserialize` (src/source/common/ecs/world.cpp) -/

/-- The occupancy map `entityMap` — a 400 × 7 boolean grid
(`ENTITIES_UPPER_LIMIT = 400` rows, 7 columns).  The C++ code only ever
accesses it at indices produced by `generateRandomNumber(0, 399)` and
`generateRandomNumber(0, 6)`, so the in-bounds 2D array is modelled as a total
function on indices. -/
def Grid := ℕ → ℕ → Bool

/-- All cells start unoccupied. -/
def initGrid : Grid := fun _ _ => false

def gridGet (g : Grid) (v h : ℕ) : Bool := g v h

def gridSet (g : Grid) (v h : ℕ) : Grid :=
  fun a b => if a = v ∧ b = h then true else g a b

/-- C float-to-int conversion (truncation toward zero), for
`(int) duplicates[0]`. -/
def truncQ (q : ℚ) : ℤ := if 0 ≤ q then ⌊q⌋ else ⌈q⌉

/-- A JSON entity description, projected to the keys `World::deserialize`
reacts to: the `duplicates` 3-tuple `[count, spacing, useRandomLane]` (read
into a `glm::vec3`) and the recursive `children` array.

Modelled from the spec for the part that is not under `src/`: the generic
transform fields consumed by `Entity::deserialize` are summarized as the
`transform` the description denotes. -/
inductive EntityDesc : Type where
  | mk : Transform → Option (List EntityDesc) → Option (ℚ × ℚ × ℚ) → EntityDesc

def EntityDesc.transform : EntityDesc → Transform
  | .mk t _ _ => t

def EntityDesc.children : EntityDesc → Option (List EntityDesc)
  | .mk _ c _ => c

def EntityDesc.duplicates : EntityDesc → Option (ℚ × ℚ × ℚ)
  | .mk _ _ d => d

/-- The state threaded through `World::deserialize`: the world's entity list
(`World::add` — modelled from the spec, it is not under `src/` — appends a
fresh entity, so an entity's id is its index), the process-wide `entityMap`
grid, the index into the `rand()` stream, and two observation logs: the
(row, column) cells assigned to randomly placed duplicates, and the
(duplicate id, original id) pairs for every duplicate created. -/
structure DState where
  entities : List Entity
  grid : Grid
  ridx : ℕ
  cellLog : List (ℕ × ℕ)
  dupLog : List (ℕ × ℕ)

/-- The fresh state before any deserialization. -/
def dInit : DState :=
  { entities := [], grid := initGrid, ridx := 0, cellLog := [], dupLog := [] }

/-- `generateRandomNumber(min, max) = rand() % (max - min + 1) + min`, drawn
from the modelled `rand()` stream at index `i`. -/
def genRandom (rng : ℕ → ℕ) (i : ℕ) (lo hi : ℕ) : ℕ :=
  rng i % (hi - lo + 1) + lo

/-- The rejection-sampling loop picking an unoccupied cell:
`horizontal = R(0,6); vertical = R(0,399); while (entityMap[v][h]) { redraw }`.
The C++ loop is unbounded; `fuel` bounds the number of draws here and `none`
is the surrogate for nontermination.  Returns the cell and the new stream
index. -/
def pickCell (rng : ℕ → ℕ) (grid : Grid) : ℕ → ℕ → Option (ℕ × ℕ × ℕ)
  | 0, _ => none
  | fuel + 1, ridx =>
    let h := genRandom rng ridx 0 6
    let v := genRandom rng (ridx + 1) 0 399
    if gridGet grid v h then pickCell rng grid fuel (ridx + 2)
    else some (v, h, ridx + 2)

/-- The random placement of a duplicate (`SLICE_SIZE = 13`):
`position.x += -vertical * SLICE_SIZE; position.z = -7.5 + horizontal * 2.5;`. -/
def placeRandomDup (e : Entity) (v h : ℕ) : Entity :=
  { e with localTransform :=
    { e.localTransform with position :=
      { e.localTransform.position with
        x := e.localTransform.position.x + (-(v : ℚ)) * 13,
        z := -7.5 + (h : ℚ) * 2.5 } } }

/-- The linear placement of the `i`-th duplicate:
`position.x += -i * duplicates[1];`. -/
def placeLinearDup (e : Entity) (i : ℕ) (spacing : ℚ) : Entity :=
  { e with localTransform :=
    { e.localTransform with position :=
      { e.localTransform.position with
        x := e.localTransform.position.x + (-(i : ℚ)) * spacing } } }

/-- The duplicates loop `for (i = 1; i < (int) duplicates[0]; ++i)`, with `k`
iterations remaining and `i` the current loop counter.  Each iteration adds a
fresh entity with the same deserialized data and the *original's* parent, then
places it randomly or linearly. -/
def dupLoop (rng : ℕ → ℕ) (fuel : ℕ) (t : Transform) (p : Option ℕ)
    (origId : ℕ) (spacing : ℚ) (useRand : Bool) :
    ℕ → ℕ → DState → Option DState
  | 0, _, st => some st
  | k + 1, i, st =>
    let id := st.entities.length
    let e0 : Entity := { localTransform := t, parent := p, isDup := true }
    if useRand then
      match pickCell rng st.grid fuel st.ridx with
      | none => none
      | some (v, h, r') =>
        let st' : DState :=
          { entities := st.entities ++ [placeRandomDup e0 v h],
            grid := gridSet st.grid v h,
            ridx := r',
            cellLog := st.cellLog ++ [(v, h)],
            dupLog := st.dupLog ++ [(id, origId)] }
        dupLoop rng fuel t p origId spacing useRand k (i + 1) st'
    else
      let st' : DState :=
        { st with
          entities := st.entities ++ [placeLinearDup e0 i spacing],
          dupLog := st.dupLog ++ [(id, origId)] }
      dupLoop rng fuel t p origId spacing useRand k (i + 1) st'

mutual

/-- One iteration of the entity loop of `World::deserialize`: create the
entity with the given parent, deserialize its data, recurse into `children`
with the new entity as parent, then run the duplicates loop (duplicates get
the *given* parent and their `children` are never deserialized). -/
def deserializeEntity (rng : ℕ → ℕ) (fuel : ℕ) (d : EntityDesc) (p : Option ℕ)
    (st : DState) : Option DState :=
  match d with
  | .mk t ch dup =>
    let id := st.entities.length
    let st1 : DState :=
      { st with entities := st.entities ++ [{ localTransform := t, parent := p }] }
    let st2opt := match ch with
      | none => some st1
      | some cs => deserializeList rng fuel cs (some id) st1
    match st2opt with
    | none => none
    | some st2 =>
      match dup with
      | none => some st2
      | some (c, s, r) =>
        dupLoop rng fuel t p id s (decide (r ≠ 0)) ((truncQ c).toNat - 1) 1 st2

/-- `World::deserialize` on a JSON array of entity descriptions (the
`is_array` guard corresponds to the list type of the argument). -/
def deserializeList (rng : ℕ → ℕ) (fuel : ℕ) (ds : List EntityDesc)
    (p : Option ℕ) (st : DState) : Option DState :=
  match ds with
  | [] => some st
  | d :: rest =>
    match deserializeEntity rng fuel d p st with
    | none => none
    | some st' => deserializeList rng fuel rest p st'

end

/-! ### `LevelsState` background fade (part_003) -/

/-- `glm::smoothstep(edge0, edge1, x)`:
`t = clamp((x - edge0) / (edge1 - edge0), 0, 1); return t*t*(3 - 2*t);`. -/
def smoothstep (e0 e1 x : ℚ) : ℚ :=
  let t := clampQ ((x - e0) / (e1 - e0)) 0 1
  t * t * (3 - 2 * t)

/-- The background tint set each frame by `LevelsState::onDraw`:
`glm::vec4(glm::smoothstep(0.00f, 2.00f, time))` — the same smoothstep value
splat into all four channels. -/
def levelsTint (time : ℚ) : ℚ × ℚ × ℚ × ℚ :=
  (smoothstep 0 2 time, smoothstep 0 2 time, smoothstep 0 2 time,
   smoothstep 0 2 time)

/-- The fade part of one `LevelsState::onDraw` call: `time += deltaTime;
menuMaterial->tint = vec4(smoothstep(0, 2, time));`, returning the new
accumulated time and the tint. -/
def onDrawFade (time dt : ℚ) : ℚ × (ℚ × ℚ × ℚ × ℚ) :=
  let t := time + dt
  (t, levelsTint t)

/-- The accumulated time after a sequence of `onDraw` deltas (`time` is reset
to 0 by `onInitialize`). -/
def timeAfter (deltas : List ℚ) : ℚ := deltas.foldl (· + ·) 0

/-! ### Concrete scenario instances -/

/-- A sample controller component. -/
def cc0 : ControllerComponent := ⟨1, ⟨1, 1, 1⟩⟩

/-- A sample player component. -/
def pc0 : PlayerComponent := ⟨1⟩

/-- A sample player transform. -/
def TP : Transform := ⟨⟨2, 3, 4⟩, ⟨5, 0, 0⟩, ⟨1, 1, 1⟩⟩

/-- The input frame of the jump scenario: the jump key held, every other key
and button released, no scrolling, `app->levelState = 1`. -/
def jumpInput (dt : ℚ) : Input :=
  { mouse1 := false, keyW := false, keyS := false, keyQ := false, keyE := false,
    keySpace := true, keyUp := false, keyDown := false, keyEnter := false,
    keyD := false, keyRight := false, keyA := false, keyLeft := false,
    scrollY := 0, deltaTime := dt, levelState := 1,
    cameraFront := ⟨0, 0, -1⟩, cameraUp := ⟨0, 1, 0⟩, cameraRight := ⟨1, 0, 0⟩ }

/-- The input frame of the slide scenario: only the down key held. -/
def slideInput (dt : ℚ) : Input :=
  { jumpInput dt with keySpace := false, keyDown := true }

/-- The jump-scenario frame: camera at height `y` with jump state `js`,
everything else at rest. -/
def jfr (y : ℚ) (js : JumpState) : Frame :=
  { ctrl := { mouse_locked := false, slideTime := 0, jumpState := js,
              slideState := SlideState.NORMAL },
    camT := { position := ⟨0, y, 0⟩, rotation := ⟨0, 0, 0⟩, scale := ⟨1, 1, 1⟩ },
    fov := 1,
    playerT := TP,
    motion := MotionState.IDLE,
    isSlided := false }

/-- One controller update of the jump scenario. -/
def stepJ (dt : ℚ) (f : Frame) : Frame := updateCore (jumpInput dt) cc0 pc0 1 f

/-- The jump-scenario trajectory: `n` update calls starting grounded at
height 1. -/
def jTraj (dt : ℚ) (n : ℕ) : Frame := (stepJ dt)^[n] (jfr 1 JumpState.GROUNDED)

/-- The slide-scenario frame: slide timer `stime`, slide state `ss`, player
transform `q`, `isSlided` flag `b`; the camera grounded at height 1. -/
def sfr (stime : ℚ) (ss : SlideState) (q : Transform) (b : Bool) : Frame :=
  { ctrl := { mouse_locked := false, slideTime := stime,
              jumpState := JumpState.GROUNDED, slideState := ss },
    camT := { position := ⟨0, 1, 0⟩, rotation := ⟨0, 0, 0⟩, scale := ⟨1, 1, 1⟩ },
    fov := 1,
    playerT := q,
    motion := MotionState.IDLE,
    isSlided := b }

/-- One controller update of the slide scenario. -/
def stepS (dt : ℚ) (f : Frame) : Frame := updateCore (slideInput dt) cc0 pc0 1 f

/-- The slide-scenario trajectory starting in the normal state with player
transform `q`. -/
def sTraj (dt : ℚ) (q : Transform) (n : ℕ) : Frame :=
  (stepS dt)^[n] (sfr 0 SlideState.NORMAL q false)

/-- Inputs that leave the camera position untouched outside the jump logic:
no movement keys, no lateral keys, and no run trigger. -/
def quietMove (inp : Input) : Prop :=
  inp.keyW = false ∧ inp.keyS = false ∧ inp.keyQ = false ∧ inp.keyE = false ∧
  inp.keyEnter = false ∧ inp.keyD = false ∧ inp.keyRight = false ∧
  inp.keyA = false ∧ inp.keyLeft = false

/-- The guard of the jump-start branch, as the code evaluates it: jump key
pressed, `levelState != 3`, grounded, not sliding. -/
def jumpInit (inp : Input) (f : Frame) : Prop :=
  ((inp.keySpace ∨ inp.keyUp) ∧ inp.levelState ≠ 3) ∧
    f.ctrl.jumpState = JumpState.GROUNDED ∧
    f.ctrl.slideState = SlideState.NORMAL

instance (inp : Input) (f : Frame) : Decidable (jumpInit inp f) := by
  unfold jumpInit
  exact inferInstance

/-- A zero transform with unit scale. -/
def T0 : Transform := ⟨⟨0, 0, 0⟩, ⟨0, 0, 0⟩, ⟨1, 1, 1⟩⟩

/-- A controller member state at rest. -/
def sys0 : CtrlState := ⟨false, 0, JumpState.GROUNDED, SlideState.NORMAL⟩

/-- A world whose only entity has a camera but no controller and no player. -/
def w7 : CWorld := ⟨[{ localTransform := T0, camera := some ⟨1⟩ }], 1⟩

/-- The entity registered at index `i` of the deserializer state. -/
def entAt (st : DState) (i : ℕ) : Entity := st.entities.getD i default

/-- A sample `rand()` stream. -/
def rngId : ℕ → ℕ := fun i => i

/-- A child-free, duplicate-free entity description. -/
def dSimple : EntityDesc := .mk T0 none none

/-- A description with `duplicates = [3, 2, 0]` (linear spacing). -/
def dLinear : EntityDesc := .mk T0 none (some (3, 2, 0))

/-- A description with `duplicates = [3, 2, 1]` (random placement). -/
def dRandom : EntityDesc := .mk T0 none (some (3, 2, 1))

/-- A description with both a child and `duplicates = [2, 5, 0]`. -/
def dChildDup : EntityDesc := .mk T0 (some [dSimple]) (some (2, 5, 0))

/-- A candidate parent pointer is sound for a deserializer state: it points at
a registered entity that is not a duplicate (the deserializer only ever passes
`nullptr` or an original entity as parent). -/
def ParentOk (st : DState) (po : Option ℕ) : Prop :=
  ∀ i, po = some i → i < st.entities.length ∧ (entAt st i).isDup = false

/-- The running invariant of `World::deserialize`:
every registered entity's parent pointer is sound; every logged
(duplicate, original) pair points at a registered duplicate/original pair
with equal parent pointers; the logged occupancy cells are pairwise distinct,
in bounds (400 rows, 7 columns), and marked occupied in the grid. -/
def Good (st : DState) : Prop :=
  (∀ e ∈ st.entities, ParentOk st e.parent) ∧
  (∀ pr ∈ st.dupLog, pr.1 < st.entities.length ∧ pr.2 < st.entities.length ∧
    (entAt st pr.1).isDup = true ∧ (entAt st pr.2).isDup = false ∧
    (entAt st pr.1).parent = (entAt st pr.2).parent) ∧
  st.cellLog.Nodup ∧
  (∀ c ∈ st.cellLog, c.1 < 400 ∧ c.2 < 7 ∧ gridGet st.grid c.1 c.2 = true)

/-! ### Theorems -/

lemma updateCore_rotation (inp : Input) (cc : ControllerComponent)
    (pc : PlayerComponent) (wlevel : ℤ) (f : Frame) :
    (updateCore inp cc pc wlevel f).camT.rotation =
      ⟨clampPitch f.camT.rotation.x, wrapAngle f.camT.rotation.y,
       f.camT.rotation.z⟩ := rfl

lemma clampPitch_bounds (x : ℚ) :
    -(halfPiF * (99 / 100)) ≤ clampPitch x ∧
      clampPitch x ≤ halfPiF * (99 / 100) := by
  have hm : (0 : ℚ) ≤ halfPiF * (99 / 100) := by norm_num [halfPiF, piF]
  simp only [clampPitch]
  split_ifs with h1 h2 h3 <;> constructor <;> linarith

lemma wrapAngle_bounds (x : ℚ) : 0 ≤ wrapAngle x ∧ wrapAngle x < twoPiF := by
  have hc : (0 : ℚ) < twoPiF := by norm_num [twoPiF, piF]
  have key : x - twoPiF * ⌊x / twoPiF⌋ = twoPiF * Int.fract (x / twoPiF) := by
    rw [Int.fract]
    field_simp
  have h0 : (0 : ℚ) ≤ twoPiF * Int.fract (x / twoPiF) :=
    mul_nonneg hc.le (Int.fract_nonneg _)
  have h1 : twoPiF * Int.fract (x / twoPiF) < twoPiF := by
    have := Int.fract_lt_one (x / twoPiF)
    nlinarith
  unfold wrapAngle
  rw [key, abs_of_nonneg h0]
  exact ⟨h0, h1⟩

/-- C8: after every `FreeCameraControllerSystem::update` body run (required
components present), the camera pitch lies within ±0.99·(π/2) and the camera
yaw lies in the canonical period [0, 2π). -/
theorem camera_angles_invariant (inp : Input) (cc : ControllerComponent)
    (pc : PlayerComponent) (wlevel : ℤ) (f : Frame) :
    -(halfPiF * (99 / 100)) ≤ (updateCore inp cc pc wlevel f).camT.rotation.x ∧
    (updateCore inp cc pc wlevel f).camT.rotation.x ≤ halfPiF * (99 / 100) ∧
    0 ≤ (updateCore inp cc pc wlevel f).camT.rotation.y ∧
    (updateCore inp cc pc wlevel f).camT.rotation.y < twoPiF := by
  rw [updateCore_rotation]
  exact ⟨(clampPitch_bounds _).1, (clampPitch_bounds _).2,
    (wrapAngle_bounds _).1, (wrapAngle_bounds _).2⟩

lemma clampQ01_nonneg (x : ℚ) : 0 ≤ clampQ x 0 1 :=
  le_min (le_max_right x 0) zero_le_one

lemma clampQ01_le_one (x : ℚ) : clampQ x 0 1 ≤ 1 := min_le_right _ _

lemma clampQ01_mono {x y : ℚ} (h : x ≤ y) : clampQ x 0 1 ≤ clampQ y 0 1 :=
  min_le_min (max_le_max h le_rfl) le_rfl

lemma cubic_mono {a b : ℚ} (h0 : 0 ≤ a) (hab : a ≤ b) (h1 : b ≤ 1) :
    a * a * (3 - 2 * a) ≤ b * b * (3 - 2 * b) := by
  nlinarith [mul_nonneg h0 (sub_nonneg.2 hab),
    mul_nonneg (sub_nonneg.2 hab) (sub_nonneg.2 h1),
    mul_nonneg h0 h0, sq_nonneg (a - b), sq_nonneg (a + b)]

/-- C9: the `LevelsState` background tint equals `smoothstep(0, 2, t)` in all
four channels, where `t` is the accumulated time since the state was entered;
it is 0 at `t = 0`, nondecreasing in `t`, and exactly 1 for every `t ≥ 2`. -/
theorem levels_fade_ramp :
    (∀ time dt : ℚ, onDrawFade time dt =
        (time + dt, (smoothstep 0 2 (time + dt), smoothstep 0 2 (time + dt),
          smoothstep 0 2 (time + dt), smoothstep 0 2 (time + dt)))) ∧
    smoothstep 0 2 0 = 0 ∧
    (∀ t1 t2 : ℚ, t1 ≤ t2 → smoothstep 0 2 t1 ≤ smoothstep 0 2 t2) ∧
    (∀ t : ℚ, 2 ≤ t → smoothstep 0 2 t = 1) := by
  refine ⟨fun time dt => rfl, by norm_num [smoothstep, clampQ], ?_, ?_⟩
  · intro t1 t2 h
    simp only [smoothstep, sub_zero]
    have hc : clampQ (t1 / 2) 0 1 ≤ clampQ (t2 / 2) 0 1 :=
      clampQ01_mono (by linarith)
    exact cubic_mono (clampQ01_nonneg _) hc (clampQ01_le_one _)
  · intro t ht
    have h2 : (1 : ℚ) ≤ t / (2 - 0) := by
      rw [sub_zero]
      linarith
    have : clampQ (t / (2 - 0)) 0 1 = 1 := by
      unfold clampQ
      rw [max_eq_left (by linarith), min_eq_right h2]
    simp only [smoothstep, sub_zero] at this ⊢
    rw [this]
    norm_num

/-- Witness for C9 at concrete times. -/
theorem levels_fade_ramp_witness :
    smoothstep 0 2 (1/2) ≤ smoothstep 0 2 1 ∧ smoothstep 0 2 3 = 1 :=
  ⟨levels_fade_ramp.2.2.1 (1/2) 1 (by norm_num),
   levels_fade_ramp.2.2.2 3 (by norm_num)⟩

lemma findFirst_eq_none {p : Entity → Bool} {l : List Entity}
    (h : ∀ e ∈ l, p e = false) : findFirst p l = none := by
  induction l with
  | nil => rfl
  | cons e es ih =>
    simp only [findFirst]
    rw [h e (by simp), ih fun e' he' => h e' (by simp [he'])]
    rfl

/-- C7: if no single entity holds both a camera and a controller component, or
no entity holds a player component, `FreeCameraControllerSystem::update`
returns without mutating the world, the controller state, the motion state or
the `isSlided` flag. -/
theorem update_skips_when_missing (sys : CtrlState) (w : CWorld) (inp : Input)
    (motion : MotionState) (isSlided : Bool)
    (h : (∀ e ∈ w.entities, ¬(e.camera.isSome ∧ e.controller.isSome)) ∨
         (∀ e ∈ w.entities, e.player.isSome = false)) :
    update sys w inp motion isSlided = (sys, w, motion, isSlided) := by
  rcases h with h | h
  · have hnone : findCamCtrl w.entities = none := by
      apply findFirst_eq_none
      intro e he
      have := h e he
      simp only [Bool.and_eq_true] at *
      simp only [Bool.and_eq_false_iff]
      by_cases h1 : e.camera.isSome <;> by_cases h2 : e.controller.isSome <;>
        simp_all
    unfold update
    rw [hnone]
  · have hnone : findPlayer w.entities = none := findFirst_eq_none h
    unfold update
    rw [hnone]
    cases findCamCtrl w.entities <;> rfl

lemma stepJ_launch (dt : ℚ) (hd : 0 < dt) (h4 : 1 + dt * 6 < 4) :
    stepJ dt (jfr 1 JumpState.GROUNDED) = jfr (1 + dt * 6 + dt * 6) JumpState.JUMPING := by
  simp only [stepJ, jfr, TP, cc0, pc0, jumpInput, updateCore]
  norm_num [clampPitch, wrapAngle, clampQ, vadd, vsub, vneg, vscale, piF,
    halfPiF, twoPiF]
  split_ifs <;> simp_all <;> linarith

lemma stepJ_rise (dt y : ℚ) (h1 : 1 < y) (h4 : y < 4) :
    stepJ dt (jfr y JumpState.JUMPING) = jfr (y + dt * 6) JumpState.JUMPING := by
  simp only [stepJ, jfr, TP, cc0, pc0, jumpInput, updateCore]
  norm_num [clampPitch, wrapAngle, clampQ, vadd, vsub, vneg, vscale, piF,
    halfPiF, twoPiF]
  split_ifs <;> simp_all <;> linarith

lemma stepJ_flip (dt y : ℚ) (h : 4 ≤ y) :
    stepJ dt (jfr y JumpState.JUMPING) = jfr (y - dt * 6) JumpState.FALLING := by
  simp only [stepJ, jfr, TP, cc0, pc0, jumpInput, updateCore]
  norm_num [clampPitch, wrapAngle, clampQ, vadd, vsub, vneg, vscale, piF,
    halfPiF, twoPiF]
  split_ifs <;> simp_all <;> linarith

lemma stepJ_fall (dt y : ℚ) (h1 : 1 < y) (h4 : y < 4) :
    stepJ dt (jfr y JumpState.FALLING) = jfr (y - dt * 6) JumpState.FALLING := by
  simp only [stepJ, jfr, TP, cc0, pc0, jumpInput, updateCore]
  norm_num [clampPitch, wrapAngle, clampQ, vadd, vsub, vneg, vscale, piF,
    halfPiF, twoPiF]
  split_ifs <;> simp_all <;> linarith

lemma stepJ_land (dt y : ℚ) (h : y ≤ 1) :
    stepJ dt (jfr y JumpState.FALLING) = jfr 1 JumpState.GROUNDED := by
  simp only [stepJ, jfr, TP, cc0, pc0, jumpInput, updateCore]
  norm_num [clampPitch, wrapAngle, clampQ, vadd, vsub, vneg, vscale, piF,
    halfPiF, twoPiF]
  split_ifs <;> simp_all <;> linarith

lemma jTraj_succ (dt : ℚ) (n : ℕ) : jTraj dt (n + 1) = stepJ dt (jTraj dt n) :=
  Function.iterate_succ_apply' _ _ _

/-- The number of update calls after which the camera has reached the maximum
jump height: the least `M` with `1 + M*(6*dt) ≥ 4`. -/
lemma exists_M (dt : ℚ) (hd : 0 < dt) (h4 : 1 + dt * 6 < 4) :
    ∃ M : ℕ, 2 ≤ M ∧ (∀ j : ℕ, j < M → 1 + (j : ℚ) * (dt * 6) < 4) ∧
      4 ≤ 1 + (M : ℚ) * (dt * 6) := by
  have hc : (0 : ℚ) < dt * 6 := by linarith
  set x : ℚ := 3 / (dt * 6) with hxdef
  have hx1 : (1 : ℚ) < x := by
    rw [hxdef, lt_div_iff hc]
    linarith
  have hceil2 : (2 : ℤ) ≤ ⌈x⌉ := by
    have hle := Int.le_ceil x
    have h1 : (1 : ℤ) < ⌈x⌉ := by
      by_contra h
      push_neg at h
      have : ((⌈x⌉ : ℤ) : ℚ) ≤ 1 := by exact_mod_cast h
      linarith
    omega
  refine ⟨(⌈x⌉).toNat, by omega, ?_, ?_⟩
  · intro j hj
    have hjlt : (j : ℤ) ≤ ⌈x⌉ - 1 := by omega
    have hjq : (j : ℚ) ≤ (⌈x⌉ : ℚ) - 1 := by exact_mod_cast hjlt
    have hlt : ((⌈x⌉ : ℚ) - 1) < x := by
      have := Int.ceil_lt_add_one x
      linarith
    have hjx : (j : ℚ) < x := lt_of_le_of_lt hjq hlt
    have : (j : ℚ) * (dt * 6) < 3 := by
      rw [hxdef, lt_div_iff hc] at hjx
      linarith
    linarith
  · have hMq : x ≤ (((⌈x⌉).toNat : ℕ) : ℚ) := by
      have hle := Int.le_ceil x
      have : ((⌈x⌉ : ℤ) : ℚ) = (((⌈x⌉).toNat : ℕ) : ℚ) := by
        have : ((⌈x⌉).toNat : ℤ) = ⌈x⌉ := Int.toNat_of_nonneg (by omega)
        exact_mod_cast this.symm
      linarith [hle, this.le, this.ge]
    have : (3 : ℚ) ≤ (((⌈x⌉).toNat : ℕ) : ℚ) * (dt * 6) := by
      rw [hxdef, div_le_iff hc] at hMq
      linarith
    linarith

/-- Closed form of the rising phase: after `n` calls (`1 ≤ n ≤ M-1`), the
camera is `JUMPING` at height `1 + (n+1)*(6*dt)`. -/
lemma jTraj_rise (dt : ℚ) (hd : 0 < dt) (M : ℕ) (hM2 : 2 ≤ M)
    (hlt : ∀ j : ℕ, j < M → 1 + (j : ℚ) * (dt * 6) < 4) :
    ∀ n, 1 ≤ n → n ≤ M - 1 →
      jTraj dt n = jfr (1 + ((n : ℚ) + 1) * (dt * 6)) JumpState.JUMPING := by
  intro n
  induction n with
  | zero => intro h; exact absurd h (by norm_num)
  | succ k ih =>
    intro _ hk
    rcases Nat.eq_zero_or_pos k with hk0 | hk1
    · subst hk0
      have h14 : 1 + (1 : ℚ) * (dt * 6) < 4 := hlt 1 (by omega)
      rw [jTraj_succ]
      rw [show jTraj dt 0 = jfr 1 JumpState.GROUNDED from rfl]
      rw [stepJ_launch dt hd (by linarith)]
      congr 1
      push_cast
      ring
    · have hk' : k ≤ M - 1 := by omega
      rw [jTraj_succ, ih hk1 hk']
      have hpos : (0 : ℚ) < ((k : ℚ) + 1) * (dt * 6) := by positivity
      have hky : (1 : ℚ) < 1 + ((k : ℚ) + 1) * (dt * 6) := by linarith
      have hk4 : 1 + ((k : ℚ) + 1) * (dt * 6) < 4 := by
        have := hlt (k + 1) (by omega)
        push_cast at this
        linarith
      rw [stepJ_rise dt _ hky hk4]
      congr 1
      push_cast
      ring

/-- Closed form of the falling phase: after `M + k` calls (`k ≤ M-1`), the
camera is `FALLING` at height `1 + (M-1-k)*(6*dt)`. -/
lemma jTraj_fall (dt : ℚ) (hd : 0 < dt) (M : ℕ) (hM2 : 2 ≤ M)
    (hlt : ∀ j : ℕ, j < M → 1 + (j : ℚ) * (dt * 6) < 4)
    (hge : 4 ≤ 1 + (M : ℚ) * (dt * 6)) :
    ∀ k, k ≤ M - 1 →
      jTraj dt (M + k) =
        jfr (1 + ((M - 1 - k : ℕ) : ℚ) * (dt * 6)) JumpState.FALLING := by
  intro k
  induction k with
  | zero =>
    intro _
    have hcast : ((M - 1 : ℕ) : ℚ) = (M : ℚ) - 1 := by
      have h1M : (1 : ℕ) ≤ M := by omega
      push_cast [Nat.cast_sub h1M]
      ring
    rw [show M + 0 = (M - 1) + 1 by omega, jTraj_succ]
    rw [jTraj_rise dt hd M hM2 hlt (M - 1) (by omega) (le_refl _)]
    have hy : 4 ≤ 1 + (((M - 1 : ℕ) : ℚ) + 1) * (dt * 6) := by
      rw [hcast]
      have : ((M : ℚ) - 1) + 1 = (M : ℚ) := by ring
      rw [this]
      exact hge
    rw [stepJ_flip dt _ hy]
    congr 1
    simp only [Nat.sub_zero]
    rw [hcast]
    ring
  | succ k ih =>
    intro hk
    have hk' : k ≤ M - 1 := by omega
    rw [show M + (k + 1) = (M + k) + 1 by omega, jTraj_succ, ih hk']
    have hsub : 1 ≤ M - 1 - k := by omega
    have hsubq : (1 : ℚ) ≤ ((M - 1 - k : ℕ) : ℚ) := by exact_mod_cast hsub
    have hy1 : (1 : ℚ) < 1 + ((M - 1 - k : ℕ) : ℚ) * (dt * 6) := by nlinarith
    have hy4 : 1 + ((M - 1 - k : ℕ) : ℚ) * (dt * 6) < 4 := hlt (M - 1 - k) (by omega)
    rw [stepJ_fall dt _ hy1 hy4]
    congr 1
    have e : M - 1 - k = (M - 1 - (k + 1)) + 1 := by omega
    rw [e]
    push_cast
    ring

lemma jfr_jumpState (y : ℚ) (js : JumpState) :
    (jfr y js).ctrl.jumpState = js := rfl

lemma jfr_y (y : ℚ) (js : JumpState) : (jfr y js).camT.position.y = y := rfl

/-- C1: in the jump scenario (grounded start, slide state NORMAL, jump key
pressed, `0 < dt` and one jump increment below the max height), the first
update moves the jump state to `JUMPING`; the camera height then strictly
increases call by call until it reaches the maximum height 4 after `M - 1`
calls, the state turns to `FALLING` on call `M`, the height strictly
decreases until it is exactly 1.0 after `2M - 1` calls, and the state
returns to `GROUNDED` on call `2M` with the height still 1. -/
theorem jump_cycle (dt : ℚ) (hd : 0 < dt) (h4 : 1 + dt * 6 < 4) :
    ∃ M : ℕ, 2 ≤ M ∧
      (jTraj dt 1).ctrl.jumpState = JumpState.JUMPING ∧
      (∀ n, 1 ≤ n → n ≤ M - 1 →
        (jTraj dt n).ctrl.jumpState = JumpState.JUMPING) ∧
      (∀ n, n ≤ M - 2 →
        (jTraj dt n).camT.position.y < (jTraj dt (n + 1)).camT.position.y) ∧
      4 ≤ (jTraj dt (M - 1)).camT.position.y ∧
      (∀ n, M ≤ n → n ≤ 2 * M - 1 →
        (jTraj dt n).ctrl.jumpState = JumpState.FALLING) ∧
      (∀ n, M - 1 ≤ n → n ≤ 2 * M - 2 →
        (jTraj dt (n + 1)).camT.position.y < (jTraj dt n).camT.position.y) ∧
      (jTraj dt (2 * M - 1)).camT.position.y = 1 ∧
      (jTraj dt (2 * M)).ctrl.jumpState = JumpState.GROUNDED ∧
      (jTraj dt (2 * M)).camT.position.y = 1 := by
  obtain ⟨M, hM2, hlt, hge⟩ := exists_M dt hd h4
  have hrise := jTraj_rise dt hd M hM2 hlt
  have hfall := jTraj_fall dt hd M hM2 hlt hge
  have hc : (0 : ℚ) < dt * 6 := by linarith
  have hcastM : ((M - 1 : ℕ) : ℚ) = (M : ℚ) - 1 := by
    have h1M : (1 : ℕ) ≤ M := by omega
    push_cast [Nat.cast_sub h1M]
    ring
  have h2M1 : jTraj dt (2 * M - 1) = jfr 1 JumpState.FALLING := by
    rw [show 2 * M - 1 = M + (M - 1) by omega, hfall (M - 1) le_rfl]
    congr 1
    simp
  have h2M : jTraj dt (2 * M) = jfr 1 JumpState.GROUNDED := by
    rw [show 2 * M = (2 * M - 1) + 1 by omega, jTraj_succ, h2M1,
      stepJ_land dt 1 le_rfl]
  refine ⟨M, hM2, ?_, ?_, ?_, ?_, ?_, ?_, ?_, ?_, ?_⟩
  · rw [hrise 1 le_rfl (by omega), jfr_jumpState]
  · intro n h1 h2
    rw [hrise n h1 h2, jfr_jumpState]
  · intro n hn
    rcases Nat.eq_zero_or_pos n with hn0 | hn1
    · subst hn0
      rw [show jTraj dt 0 = jfr 1 JumpState.GROUNDED from rfl,
        hrise 1 le_rfl (by omega), jfr_y, jfr_y]
      have : (0 : ℚ) < ((1 : ℚ) + 1) * (dt * 6) := by positivity
      push_cast
      linarith
    · rw [hrise n hn1 (by omega), hrise (n + 1) (by omega) (by omega),
        jfr_y, jfr_y]
      have : (((n : ℚ) + 1) + 1) * (dt * 6) - ((n : ℚ) + 1) * (dt * 6) = dt * 6 := by
        ring
      push_cast
      linarith
  · rw [hrise (M - 1) (by omega) le_rfl, jfr_y, hcastM]
    have : ((M : ℚ) - 1) + 1 = (M : ℚ) := by ring
    rw [this]
    exact hge
  · intro n h1 h2
    rw [show n = M + (n - M) by omega, hfall (n - M) (by omega), jfr_jumpState]
  · intro n h1 h2
    rcases Nat.lt_or_ge n M with hnM | hnM
    · have hn : n = M - 1 := by omega
      subst hn
      rw [show (M - 1) + 1 = M + 0 by omega, hfall 0 (by omega),
        hrise (M - 1) (by omega) le_rfl, jfr_y, jfr_y]
      simp only [Nat.sub_zero]
      rw [hcastM]
      linarith
    · have hk : n = M + (n - M) := by omega
      rw [hk, show M + (n - M) + 1 = M + ((n - M) + 1) by omega,
        hfall (n - M) (by omega), hfall ((n - M) + 1) (by omega), jfr_y, jfr_y]
      have e : M - 1 - (n - M) = (M - 1 - ((n - M) + 1)) + 1 := by omega
      rw [e]
      push_cast
      linarith
  · rw [h2M1, jfr_y]
  · rw [h2M, jfr_jumpState]
  · rw [h2M, jfr_y]

/-- Witness for C1 at `dt = 1/10`. -/
theorem jump_cycle_witness :
    (0 : ℚ) < 1 / 10 ∧ 1 + (1 / 10 : ℚ) * 6 < 4 ∧
      ∃ M : ℕ, 2 ≤ M ∧
        (jTraj (1 / 10) 1).ctrl.jumpState = JumpState.JUMPING ∧
        (∀ n, 1 ≤ n → n ≤ M - 1 →
          (jTraj (1 / 10) n).ctrl.jumpState = JumpState.JUMPING) ∧
        (∀ n, n ≤ M - 2 →
          (jTraj (1 / 10) n).camT.position.y <
            (jTraj (1 / 10) (n + 1)).camT.position.y) ∧
        4 ≤ (jTraj (1 / 10) (M - 1)).camT.position.y ∧
        (∀ n, M ≤ n → n ≤ 2 * M - 1 →
          (jTraj (1 / 10) n).ctrl.jumpState = JumpState.FALLING) ∧
        (∀ n, M - 1 ≤ n → n ≤ 2 * M - 2 →
          (jTraj (1 / 10) (n + 1)).camT.position.y <
            (jTraj (1 / 10) n).camT.position.y) ∧
        (jTraj (1 / 10) (2 * M - 1)).camT.position.y = 1 ∧
        (jTraj (1 / 10) (2 * M)).ctrl.jumpState = JumpState.GROUNDED ∧
        (jTraj (1 / 10) (2 * M)).camT.position.y = 1 :=
  ⟨by norm_num, by norm_num, jump_cycle (1 / 10) (by norm_num) (by norm_num)⟩

lemma updateCore_quiet_js (inp : Input) (cc : ControllerComponent)
    (pc : PlayerComponent) (wl : ℤ) (f : Frame)
    (hW : inp.keyW = false) (hS : inp.keyS = false) (hQ : inp.keyQ = false)
    (hE : inp.keyE = false) :
    (updateCore inp cc pc wl f).ctrl.jumpState =
      (let y5 := if jumpInit inp f then f.camT.position.y + inp.deltaTime * 6
                 else f.camT.position.y
       if y5 ≥ 4 then JumpState.FALLING
       else if y5 ≤ 1 then JumpState.GROUNDED
       else if jumpInit inp f then JumpState.JUMPING else f.ctrl.jumpState) := by
  simp [updateCore, jumpInit, hW, hS, hQ, hE, apply_ite Vec3.y]

lemma updateCore_quiet_y (inp : Input) (cc : ControllerComponent)
    (pc : PlayerComponent) (wl : ℤ) (f : Frame)
    (hW : inp.keyW = false) (hS : inp.keyS = false) (hQ : inp.keyQ = false)
    (hE : inp.keyE = false) (hEnter : inp.keyEnter = false)
    (hD : inp.keyD = false) (hRight : inp.keyRight = false)
    (hA : inp.keyA = false) (hLeft : inp.keyLeft = false)
    (hm : f.motion ≠ MotionState.RUNNING) :
    (updateCore inp cc pc wl f).camT.position.y =
      (let y5 := if jumpInit inp f then f.camT.position.y + inp.deltaTime * 6
                 else f.camT.position.y
       let js2 := if y5 ≥ 4 then JumpState.FALLING
                  else if y5 ≤ 1 then JumpState.GROUNDED
                  else if jumpInit inp f then JumpState.JUMPING
                  else f.ctrl.jumpState
       if js2 = JumpState.JUMPING then y5 + inp.deltaTime * 6
       else if js2 = JumpState.FALLING then y5 - inp.deltaTime * 6
       else 1) := by
  simp [updateCore, jumpInit, hW, hS, hQ, hE, hEnter, hD, hRight, hA, hLeft, hm,
    apply_ite Vec3.y]

/-- C2 (amended): with no movement/lateral/run inputs, on a call that does
not newly initiate a jump the camera height changes by exactly `+6*dt` when
the resulting jump state is `JUMPING`, by exactly `-6*dt` when it is
`FALLING`, and is set to exactly 1.0 when it is `GROUNDED`; on the call that
initiates a jump and stays `JUMPING`, the height increases by `2*6*dt` (the
jump-start branch and the per-state branch both add `6*dt`). -/
theorem jump_height_delta (inp : Input) (cc : ControllerComponent)
    (pc : PlayerComponent) (wl : ℤ) (f : Frame)
    (hq : quietMove inp) (hm : f.motion ≠ MotionState.RUNNING) :
    (¬ jumpInit inp f →
      ((updateCore inp cc pc wl f).ctrl.jumpState = JumpState.JUMPING →
        (updateCore inp cc pc wl f).camT.position.y =
          f.camT.position.y + inp.deltaTime * 6) ∧
      ((updateCore inp cc pc wl f).ctrl.jumpState = JumpState.FALLING →
        (updateCore inp cc pc wl f).camT.position.y =
          f.camT.position.y - inp.deltaTime * 6) ∧
      ((updateCore inp cc pc wl f).ctrl.jumpState = JumpState.GROUNDED →
        (updateCore inp cc pc wl f).camT.position.y = 1)) ∧
    (jumpInit inp f →
      ((updateCore inp cc pc wl f).ctrl.jumpState = JumpState.JUMPING →
        (updateCore inp cc pc wl f).camT.position.y =
          f.camT.position.y + inp.deltaTime * 6 + inp.deltaTime * 6)) := by
  obtain ⟨hW, hS, hQ, hE, hEnter, hD, hRight, hA, hLeft⟩ := hq
  have hjs := updateCore_quiet_js inp cc pc wl f hW hS hQ hE
  have hy := updateCore_quiet_y inp cc pc wl f hW hS hQ hE hEnter hD hRight hA
    hLeft hm
  rw [hy, hjs]
  by_cases hi : jumpInit inp f <;>
    simp only [hi, if_true, if_false, ite_true, ite_false, not_true, not_false_iff] <;>
    split_ifs <;> simp_all

/-- Counterexample for C2 as stated: (a) the jump-initiating call (grounded,
jump key pressed, `dt = 1/10`, no other input) ends `JUMPING` but the height
changes by `2*6*dt`, not `6*dt`, and its entry state was `GROUNDED` yet the
final height is not 1; (b) with the Q key held, a `JUMPING` frame gains the
Q-movement on top of `6*dt`. -/
theorem jump_height_delta_counterexample :
    ((stepJ (1 / 10) (jfr 1 JumpState.GROUNDED)).ctrl.jumpState =
        JumpState.JUMPING ∧
      (stepJ (1 / 10) (jfr 1 JumpState.GROUNDED)).camT.position.y ≠
        1 + 6 * (1 / 10) ∧
      (stepJ (1 / 10) (jfr 1 JumpState.GROUNDED)).camT.position.y ≠ 1) ∧
    ((updateCore { jumpInput (1 / 10) with keySpace := false, keyQ := true }
        cc0 pc0 1 (jfr 2 JumpState.JUMPING)).ctrl.jumpState =
        JumpState.JUMPING ∧
      (updateCore { jumpInput (1 / 10) with keySpace := false, keyQ := true }
        cc0 pc0 1 (jfr 2 JumpState.JUMPING)).camT.position.y ≠
        2 + 6 * (1 / 10)) := by
  constructor
  · rw [stepJ_launch (1 / 10) (by norm_num) (by norm_num)]
    refine ⟨rfl, ?_, ?_⟩ <;> norm_num [jfr]
  · constructor
    · simp only [updateCore, jumpInput, jfr, cc0, pc0, TP]
      norm_num [clampPitch, wrapAngle, clampQ, vadd, vsub, vneg, vscale,
        piF, halfPiF, twoPiF]
    · simp only [updateCore, jumpInput, jfr, cc0, pc0, TP]
      norm_num [clampPitch, wrapAngle, clampQ, vadd, vsub, vneg, vscale,
        piF, halfPiF, twoPiF]
      split_ifs <;> norm_num

/-- Witness for the amended C2 on a non-initiating `JUMPING` call. -/
theorem jump_height_delta_witness :
    (updateCore (jumpInput (1 / 10)) cc0 pc0 1
        (jfr 2 JumpState.JUMPING)).camT.position.y =
      (jfr 2 JumpState.JUMPING).camT.position.y +
        (jumpInput (1 / 10)).deltaTime * 6 :=
  ((jump_height_delta (jumpInput (1 / 10)) cc0 pc0 1 (jfr 2 JumpState.JUMPING)
      ⟨rfl, rfl, rfl, rfl, rfl, rfl, rfl, rfl, rfl⟩ (by decide)).1
    (by decide)).1
    (by simp only [updateCore, jumpInput, jfr, cc0, pc0, TP]
        norm_num [clampPitch, wrapAngle, clampQ, vadd, vsub, vneg, vscale,
          piF, halfPiF, twoPiF]
        split_ifs <;> simp_all <;> norm_num at *)

lemma stepS_start (dt : ℚ) (hd : 0 < dt) (s : ℚ) (q : Transform) (b : Bool) :
    stepS dt (sfr s SlideState.NORMAL q b) =
      sfr dt SlideState.Slided (slideOffset q) true := by
  simp only [stepS, sfr, slideInput, jumpInput, cc0, pc0, updateCore]
  norm_num [clampPitch, wrapAngle, clampQ, vadd, vsub, vneg, vscale, piF,
    halfPiF, twoPiF]
  split_ifs <;> simp_all <;> linarith

lemma stepS_hold (dt s : ℚ) (q : Transform) (b : Bool)
    (hlt : s + dt < dt * 50) :
    stepS dt (sfr s SlideState.Slided q b) =
      sfr (s + dt) SlideState.Slided q true := by
  simp only [stepS, sfr, slideInput, jumpInput, cc0, pc0, updateCore]
  norm_num [clampPitch, wrapAngle, clampQ, vadd, vsub, vneg, vscale, piF,
    halfPiF, twoPiF]
  split_ifs <;> simp_all <;> linarith

lemma stepS_end (dt s : ℚ) (q : Transform) (b : Bool)
    (hge : s + dt ≥ dt * 50) :
    stepS dt (sfr s SlideState.Slided q b) =
      sfr (s + dt) SlideState.NORMAL (slideRevert q) false := by
  simp only [stepS, sfr, slideInput, jumpInput, cc0, pc0, updateCore]
  norm_num [clampPitch, wrapAngle, clampQ, vadd, vsub, vneg, vscale, piF,
    halfPiF, twoPiF]
  split_ifs <;> simp_all <;> linarith

lemma slideRevert_slideOffset (q : Transform) : slideRevert (slideOffset q) = q := by
  cases q with
  | mk p r sc =>
    cases p with
    | mk px py pz =>
      cases r with
      | mk rx ry rz => simp [slideRevert, slideOffset]

lemma sTraj_succ (dt : ℚ) (q : Transform) (n : ℕ) :
    sTraj dt q (n + 1) = stepS dt (sTraj dt q n) :=
  Function.iterate_succ_apply' _ _ _

/-- Closed form of the sliding phase: after `1 + k` calls (`k ≤ 48`), the
slide is active, the player transform carries the offset exactly once, and
the accumulated slide time is `(1+k)*dt`. -/
lemma sTraj_phase (dt : ℚ) (hd : 0 < dt) (q : Transform) :
    ∀ k, k ≤ 48 → sTraj dt q (1 + k) =
      sfr (((1 + k : ℕ) : ℚ) * dt) SlideState.Slided (slideOffset q) true := by
  intro k
  induction k with
  | zero =>
    intro _
    have h0 : sTraj dt q (1 + 0) = stepS dt (sfr 0 SlideState.NORMAL q false) := by
      rw [show 1 + 0 = 0 + 1 by omega, sTraj_succ]
      rfl
    rw [h0, stepS_start dt hd]
    congr 1
    push_cast
    ring
  | succ k ih =>
    intro hk
    have hk' : k ≤ 48 := by omega
    rw [show 1 + (k + 1) = (1 + k) + 1 by omega, sTraj_succ, ih hk']
    have hq49 : ((1 + k : ℕ) : ℚ) * dt + dt < dt * 50 := by
      have hk49 : ((1 + k : ℕ) : ℚ) ≤ 48 := by exact_mod_cast by omega
      nlinarith
    rw [stepS_hold dt _ _ _ hq49]
    congr 1
    push_cast
    ring

/-- C3: from GROUNDED/NORMAL, pressing the slide key sets the slide state to
`Slided` and applies the slide offset (rotation.x -= 90, position.z -= 1,
position.y += 1) exactly once: the player transform stays at the offset value
for the whole slide (calls 1..49 with constant `dt`), the accumulated slide
time after call `n` is `n*dt`, and on call 50 (accumulated time `50*dt`,
i.e. 50 frame-deltas) the state returns to `NORMAL` with the offset exactly
reversed, so the whole cycle leaves the player transform unchanged. -/
theorem slide_cycle (dt : ℚ) (hd : 0 < dt) (q : Transform) :
    (slideOffset q).rotation.x = q.rotation.x - 90 ∧
    (slideOffset q).position.z = q.position.z - 1 ∧
    (slideOffset q).position.y = q.position.y + 1 ∧
    (sTraj dt q 1).ctrl.slideState = SlideState.Slided ∧
    (sTraj dt q 1).playerT = slideOffset q ∧
    (∀ n, 1 ≤ n → n ≤ 49 →
      (sTraj dt q n).ctrl.slideState = SlideState.Slided ∧
      (sTraj dt q n).playerT = slideOffset q ∧
      (sTraj dt q n).ctrl.slideTime = (n : ℚ) * dt) ∧
    (sTraj dt q 50).ctrl.slideState = SlideState.NORMAL ∧
    (sTraj dt q 50).playerT = q := by
  have hphase := sTraj_phase dt hd q
  have h49 : sTraj dt q 49 =
      sfr ((49 : ℚ) * dt) SlideState.Slided (slideOffset q) true := by
    have := hphase 48 le_rfl
    rw [show 1 + 48 = 49 by omega] at this
    rw [this]
    norm_num
  have h50 : sTraj dt q 50 =
      sfr ((49 : ℚ) * dt + dt) SlideState.NORMAL (slideRevert (slideOffset q))
        false := by
    rw [show 50 = 49 + 1 by omega, sTraj_succ, h49, stepS_end]
    nlinarith
  refine ⟨rfl, rfl, rfl, ?_, ?_, ?_, ?_, ?_⟩
  · rw [show 1 = 1 + 0 by omega, hphase 0 (by omega)]
    rfl
  · rw [show 1 = 1 + 0 by omega, hphase 0 (by omega)]
    rfl
  · intro n h1 h49n
    have := hphase (n - 1) (by omega)
    rw [show 1 + (n - 1) = n by omega] at this
    rw [this]
    exact ⟨rfl, rfl, rfl⟩
  · rw [h50]
    rfl
  · rw [h50, slideRevert_slideOffset]
    rfl

/-- Witness for C3 at `dt = 1/10` and a sample player transform. -/
theorem slide_cycle_witness :
    (sTraj (1 / 10) TP 1).ctrl.slideState = SlideState.Slided ∧
    (sTraj (1 / 10) TP 50).playerT = TP :=
  ⟨(slide_cycle (1 / 10) (by norm_num) TP).2.2.2.1,
   (slide_cycle (1 / 10) (by norm_num) TP).2.2.2.2.2.2.2⟩

/-- Witness for C7: a world with a camera-only entity is left untouched. -/
theorem update_skips_when_missing_witness :
    update sys0 w7 (jumpInput (1 / 10)) MotionState.IDLE false =
      (sys0, w7, MotionState.IDLE, false) :=
  update_skips_when_missing sys0 w7 (jumpInput (1 / 10)) MotionState.IDLE false
    (Or.inl (by decide))

lemma getD_append_lt (l1 l2 : List Entity) (n : ℕ) (d : Entity)
    (h : n < l1.length) : (l1 ++ l2).getD n d = l1.getD n d := by
  induction l1 generalizing n with
  | nil => simp at h
  | cons a l ih =>
    cases n with
    | zero => rfl
    | succ m =>
      simp only [List.cons_append, List.getD_cons_succ]
      exact ih m (by simpa using h)

lemma getD_append_length (l : List Entity) (e d : Entity) :
    (l ++ [e]).getD l.length d = e := by
  induction l with
  | nil => rfl
  | cons a l ih => simpa using ih

/-- Closed form of `World::deserialize` on descriptions with no `children`
and no `duplicates` keys: one entity is appended per description, carrying
the description's transform and the given parent. -/
lemma deserializeList_simple (rng : ℕ → ℕ) (fuel : ℕ) (ds : List EntityDesc)
    (p : Option ℕ) (st : DState)
    (h : ∀ d ∈ ds, d.children = none ∧ d.duplicates = none) :
    deserializeList rng fuel ds p st =
      some { st with entities := st.entities ++
        (ds.map fun d => { localTransform := d.transform, parent := p }) } := by
  induction ds generalizing st with
  | nil => simp [deserializeList]
  | cons d rest ih =>
    obtain ⟨hch, hdup⟩ := h d (by simp)
    cases d with
    | mk t ch dup =>
      simp only [EntityDesc.children] at hch
      simp only [EntityDesc.duplicates] at hdup
      subst hch hdup
      simp only [deserializeList, deserializeEntity]
      rw [ih _ fun d' hd' => h d' (by simp [hd'])]
      simp [EntityDesc.transform]

/-- C6: deserializing a JSON array of `N` descriptions, none of which has a
`children` or `duplicates` key, adds exactly `N` entities, each with its
parent pointer set to the given parent. -/
theorem deserialize_simple_count (rng : ℕ → ℕ) (fuel : ℕ)
    (ds : List EntityDesc) (p : Option ℕ) (st : DState)
    (h : ∀ d ∈ ds, d.children = none ∧ d.duplicates = none) :
    ∃ st', deserializeList rng fuel ds p st = some st' ∧
      st'.entities.length = st.entities.length + ds.length ∧
      ∀ e ∈ st'.entities.drop st.entities.length, e.parent = p := by
  refine ⟨_, deserializeList_simple rng fuel ds p st h, by simp, ?_⟩
  intro e he
  rw [List.drop_left] at he
  simp only [List.mem_map] at he
  obtain ⟨d, _, rfl⟩ := he
  rfl

/-- Witness for C6 on a two-element array. -/
theorem deserialize_simple_count_witness :
    ∃ st', deserializeList rngId 5 [dSimple, dSimple] none dInit = some st' ∧
      st'.entities.length = dInit.entities.length + 2 ∧
      ∀ e ∈ st'.entities.drop dInit.entities.length, e.parent = none := by
  have h := deserialize_simple_count rngId 5 [dSimple, dSimple] none dInit
    (by intro d hd; simp at hd; subst hd; exact ⟨rfl, rfl⟩)
  simpa using h

/-- Spec of the duplicates loop with linear placement: `k` iterations starting
at loop counter `i` append `k` duplicate entities; existing entities are
untouched, and the duplicate created in iteration `j` (0-based) carries the
linear offset for loop counter `i + j`. -/
lemma dupLoop_linear_spec (rng : ℕ → ℕ) (fuel : ℕ) (t : Transform)
    (p : Option ℕ) (origId : ℕ) (s : ℚ) :
    ∀ k i st, ∃ st', dupLoop rng fuel t p origId s false k i st = some st' ∧
      st'.entities.length = st.entities.length + k ∧
      (∀ m, m < st.entities.length → entAt st' m = entAt st m) ∧
      (∀ j, j < k → entAt st' (st.entities.length + j) =
        placeLinearDup { localTransform := t, parent := p, isDup := true }
          (i + j) s) := by
  intro k
  induction k with
  | zero =>
    intro i st
    exact ⟨st, by simp [dupLoop], by simp, fun m _ => rfl,
      fun j hj => absurd hj (by omega)⟩
  | succ k ih =>
    intro i st
    have hstep : dupLoop rng fuel t p origId s false (k + 1) i st =
        dupLoop rng fuel t p origId s false k (i + 1)
          { st with
            entities := st.entities ++
              [placeLinearDup ({ localTransform := t, parent := p, isDup := true }) i s],
            dupLog := st.dupLog ++ [(st.entities.length, origId)] } := by
      simp [dupLoop]
    obtain ⟨st', hrun, hlen, hpres, hdup⟩ := ih (i + 1)
      { st with
        entities := st.entities ++
          [placeLinearDup ({ localTransform := t, parent := p, isDup := true }) i s],
        dupLog := st.dupLog ++ [(st.entities.length, origId)] }
    have hlenN : ({ st with
        entities := st.entities ++
          [placeLinearDup ({ localTransform := t, parent := p, isDup := true }) i s],
        dupLog := st.dupLog ++ [(st.entities.length, origId)] } : DState).entities.length
        = st.entities.length + 1 := by simp
    refine ⟨st', by rw [hstep]; exact hrun, by rw [hlen, hlenN]; omega, ?_, ?_⟩
    · intro m hm
      rw [hpres m (by rw [hlenN]; omega)]
      simp only [entAt]
      exact getD_append_lt _ _ m _ hm
    · intro j hj
      cases j with
      | zero =>
        have := hpres st.entities.length (by rw [hlenN]; omega)
        rw [Nat.add_zero, this]
        simp only [entAt]
        rw [getD_append_length]
        rfl
      | succ j' =>
        have hj' := hdup j' (by omega)
        rw [hlenN] at hj'
        rw [show st.entities.length + (j' + 1) = st.entities.length + 1 + j' by omega,
          hj', show i + 1 + j' = i + (j' + 1) by omega]

/-- C4: an entity description with `duplicates = [count, spacing, false]`
creates `count - 1` additional copies; the original keeps its deserialized
x-position, and the `i`-th duplicate (1-indexed) has its x-position offset by
`-i * spacing` relative to it.  All created entities carry the given parent. -/
theorem duplicates_linear_spacing (rng : ℕ → ℕ) (fuel : ℕ) (t : Transform)
    (c s : ℚ) (p : Option ℕ) (st : DState) (hc : 1 ≤ truncQ c) :
    ∃ st', deserializeList rng fuel [EntityDesc.mk t none (some (c, s, 0))] p st
        = some st' ∧
      st'.entities.length = st.entities.length + (truncQ c).toNat ∧
      (entAt st' st.entities.length).localTransform.position.x = t.position.x ∧
      (entAt st' st.entities.length).parent = p ∧
      (∀ i, 1 ≤ i → i ≤ (truncQ c).toNat - 1 →
        (entAt st' (st.entities.length + i)).localTransform.position.x =
          t.position.x + (-(i : ℚ)) * s ∧
        (entAt st' (st.entities.length + i)).parent = p) := by
  obtain ⟨st', hrun, hlen, hpres, hdup⟩ := dupLoop_linear_spec rng fuel t p
    st.entities.length s ((truncQ c).toNat - 1) 1
    { st with entities := st.entities ++ [{ localTransform := t, parent := p }] }
  have hlenN : ({ st with entities := st.entities ++
      [{ localTransform := t, parent := p }] } : DState).entities.length
        = st.entities.length + 1 := by simp
  have hent : deserializeEntity rng fuel (EntityDesc.mk t none (some (c, s, 0)))
      p st = some st' := by
    simp only [deserializeEntity]
    rw [show (decide ((0 : ℚ) ≠ 0)) = false by simp]
    exact hrun
  have hlist : deserializeList rng fuel
      [EntityDesc.mk t none (some (c, s, 0))] p st = some st' := by
    simp [deserializeList, hent]
  refine ⟨st', hlist, by rw [hlen, hlenN]; omega, ?_, ?_, ?_⟩
  · rw [hpres st.entities.length (by rw [hlenN]; omega)]
    simp only [entAt]
    rw [getD_append_length]
  · rw [hpres st.entities.length (by rw [hlenN]; omega)]
    simp only [entAt]
    rw [getD_append_length]
  · intro i h1 h2
    have := hdup (i - 1) (by omega)
    rw [hlenN] at this
    rw [show st.entities.length + i = st.entities.length + 1 + (i - 1) by omega,
      this, show 1 + (i - 1) = i by omega]
    exact ⟨rfl, rfl⟩

/-- Witness for C4 with `duplicates = [3, 2, 0]`. -/
theorem duplicates_linear_spacing_witness :
    ∃ st', deserializeList rngId 5 [EntityDesc.mk T0 none (some (3, 2, 0))]
        none dInit = some st' ∧
      st'.entities.length = dInit.entities.length + (truncQ 3).toNat ∧
      (entAt st' dInit.entities.length).localTransform.position.x =
        T0.position.x ∧
      (entAt st' dInit.entities.length).parent = none ∧
      (∀ i, 1 ≤ i → i ≤ (truncQ 3).toNat - 1 →
        (entAt st' (dInit.entities.length + i)).localTransform.position.x =
          T0.position.x + (-(i : ℚ)) * 2 ∧
        (entAt st' (dInit.entities.length + i)).parent = none) :=
  duplicates_linear_spacing rngId 5 T0 3 2 none dInit
    (by norm_num [truncQ])

lemma gridGet_gridSet_mono (g : Grid) (v h a b : ℕ)
    (hab : gridGet g a b = true) : gridGet (gridSet g v h) a b = true := by
  simp only [gridGet, gridSet]
  split_ifs <;> simp [gridGet] at hab ⊢ <;> exact hab

lemma gridSet_self (g : Grid) (v h : ℕ) : gridGet (gridSet g v h) v h = true := by
  simp [gridGet, gridSet]

/-- Every cell returned by the rejection-sampling loop is unoccupied and in
bounds (row < 400, column < 7). -/
lemma pickCell_spec (rng : ℕ → ℕ) (grid : Grid) :
    ∀ fuel ridx v h r', pickCell rng grid fuel ridx = some (v, h, r') →
      gridGet grid v h = false ∧ v < 400 ∧ h < 7 := by
  intro fuel
  induction fuel with
  | zero =>
    intro ridx v h r' hp
    simp [pickCell] at hp
  | succ fuel ih =>
    intro ridx v h r' hp
    simp only [pickCell] at hp
    split_ifs at hp with hocc
    · exact ih _ _ _ _ hp
    · rw [Option.some_inj] at hp
      obtain ⟨rfl, rfl, rfl⟩ := Prod.mk.injEq .. ▸ hp
      refine ⟨by simpa using hocc, ?_, ?_⟩
      · simp only [genRandom]
        omega
      · simp only [genRandom]
        omega

lemma entAt_ext (st st' : DState) (tail : List Entity)
    (hext : st'.entities = st.entities ++ tail) (i : ℕ)
    (hi : i < st.entities.length) : entAt st' i = entAt st i := by
  simp only [entAt, hext]
  exact getD_append_lt _ _ i _ hi

lemma parentOk_mono (st st' : DState) (tail : List Entity)
    (hext : st'.entities = st.entities ++ tail) (po : Option ℕ)
    (h : ParentOk st po) : ParentOk st' po := by
  intro i hpo
  obtain ⟨hlt, hdup⟩ := h i hpo
  refine ⟨by rw [hext]; simp only [List.length_append]; omega, ?_⟩
  rw [entAt_ext st st' tail hext i hlt]
  exact hdup

/-- Appending one non-duplicate entity with a sound parent pointer preserves
the invariant, and the new entity's id is itself a sound parent pointer. -/
lemma good_add_orig (st : DState) (hg : Good st) (e : Entity)
    (hdup : e.isDup = false) (hpe : ParentOk st e.parent) :
    Good { st with entities := st.entities ++ [e] } ∧
      ParentOk { st with entities := st.entities ++ [e] }
        (some st.entities.length) := by
  obtain ⟨h1, h2, h3, h4⟩ := hg
  constructor
  · refine ⟨?_, ?_, h3, h4⟩
    · intro x hx
      rcases List.mem_append.mp hx with hx | hx
      · exact parentOk_mono st _ [e] rfl _ (h1 x hx)
      · rw [List.mem_singleton] at hx
        rw [hx]
        exact parentOk_mono st _ [e] rfl _ hpe
    · intro pr hpr
      obtain ⟨ha, hb, hc, hd', heq⟩ := h2 pr hpr
      have e1 := entAt_ext st { st with entities := st.entities ++ [e] } [e]
        rfl pr.1 ha
      have e2 := entAt_ext st { st with entities := st.entities ++ [e] } [e]
        rfl pr.2 hb
      exact ⟨by simp only [List.length_append, List.length_singleton]; omega,
        by simp only [List.length_append, List.length_singleton]; omega,
        by rw [e1]; exact hc, by rw [e2]; exact hd', by rw [e1, e2, heq]⟩
  · intro i hi
    rw [Option.some_inj] at hi
    subst hi
    refine ⟨by simp, ?_⟩
    have : entAt { st with entities := st.entities ++ [e] }
        st.entities.length = e := by
      simp only [entAt]
      exact getD_append_length _ _ _
    rw [this]
    exact hdup

/-- Appending one duplicate entity together with its (duplicate, original)
log pair preserves the invariant, for any new occupancy data that itself
satisfies the occupancy part of the invariant. -/
lemma good_add_dup (st : DState) (hg : Good st) (e : Entity) (origId : ℕ)
    (hisdup : e.isDup = true) (hpe : ParentOk st e.parent)
    (ho : origId < st.entities.length)
    (hod : (entAt st origId).isDup = false)
    (hop : (entAt st origId).parent = e.parent)
    (g2 : Grid) (r2 : ℕ) (c2 : List (ℕ × ℕ)) (hcn : c2.Nodup)
    (hcb : ∀ c ∈ c2, c.1 < 400 ∧ c.2 < 7 ∧ gridGet g2 c.1 c.2 = true) :
    Good { entities := st.entities ++ [e],
           grid := g2, ridx := r2, cellLog := c2,
           dupLog := st.dupLog ++ [(st.entities.length, origId)] } := by
  obtain ⟨h1, h2, _, _⟩ := hg
  have hext : ({ entities := st.entities ++ [e],
                 grid := g2, ridx := r2, cellLog := c2,
                 dupLog := st.dupLog ++ [(st.entities.length, origId)] } :
      DState).entities = st.entities ++ [e] := rfl
  refine ⟨?_, ?_, hcn, hcb⟩
  · intro x hx
    rcases List.mem_append.mp hx with hx | hx
    · exact parentOk_mono st _ [e] hext _ (h1 x hx)
    · rw [List.mem_singleton] at hx
      rw [hx]
      exact parentOk_mono st _ [e] hext _ hpe
  · intro pr hpr
    rcases List.mem_append.mp hpr with hpr | hpr
    · obtain ⟨ha, hb, hc, hd', heq⟩ := h2 pr hpr
      have e1 := entAt_ext st _ [e] hext pr.1 ha
      have e2 := entAt_ext st _ [e] hext pr.2 hb
      exact ⟨by simp only [List.length_append, List.length_singleton]; omega,
        by simp only [List.length_append, List.length_singleton]; omega,
        by rw [e1]; exact hc, by rw [e2]; exact hd', by rw [e1, e2, heq]⟩
    · rw [List.mem_singleton] at hpr
      subst hpr
      have eL : entAt { entities := st.entities ++ [e],
                        grid := g2, ridx := r2, cellLog := c2,
                        dupLog := st.dupLog ++ [(st.entities.length, origId)] }
            st.entities.length = e := by
        simp only [entAt]
        exact getD_append_length _ _ _
      have eO := entAt_ext st _ [e] hext origId ho
      exact ⟨by simp, by simp only [List.length_append, List.length_singleton]; omega,
        by rw [eL]; exact hisdup, by rw [eO]; exact hod,
        by rw [eL, eO, hop]⟩

/-- The duplicates loop preserves the deserializer invariant and only appends
entities. -/
lemma dupLoop_good (rng : ℕ → ℕ) (fuel : ℕ) (t : Transform) (p : Option ℕ)
    (origId : ℕ) (s : ℚ) (useRand : Bool) :
    ∀ k i st st', Good st → ParentOk st p →
      origId < st.entities.length →
      (entAt st origId).isDup = false →
      (entAt st origId).parent = p →
      dupLoop rng fuel t p origId s useRand k i st = some st' →
      Good st' ∧ ∃ tail, st'.entities = st.entities ++ tail := by
  intro k
  induction k with
  | zero =>
    intro i st st' hg hp ho hod hpar hrun
    simp only [dupLoop, Option.some_inj] at hrun
    subst hrun
    exact ⟨hg, [], by simp⟩
  | succ k ih =>
    intro i st st' hg hp ho hod hpar hrun
    simp only [dupLoop] at hrun
    split_ifs at hrun with hr
    · -- random placement
      cases hpick : pickCell rng st.grid fuel st.ridx with
      | none => rw [hpick] at hrun; simp at hrun
      | some trip =>
        obtain ⟨v, h, r'⟩ := trip
        rw [hpick] at hrun
        simp only at hrun
        obtain ⟨hfree, hv, hh⟩ := pickCell_spec rng st.grid fuel st.ridx v h r' hpick
        obtain ⟨hg1, hg2, hg3, hg4⟩ := hg
        have hs : (placeRandomDup
            { localTransform := t, parent := p, isDup := true } v h).isDup
              = true := rfl
        have hsp : (placeRandomDup
            { localTransform := t, parent := p, isDup := true } v h).parent
              = p := rfl
        have hnotmem : (v, h) ∉ st.cellLog := by
          intro hmem
          have := (hg4 _ hmem).2.2
          rw [hfree] at this
          exact Bool.false_ne_true this
        have hnodup : (st.cellLog ++ [(v, h)]).Nodup := by
          rw [← List.concat_eq_append]
          exact List.Nodup.concat hnotmem hg3
        have hbounds : ∀ c ∈ st.cellLog ++ [(v, h)],
            c.1 < 400 ∧ c.2 < 7 ∧ gridGet (gridSet st.grid v h) c.1 c.2 = true := by
          intro c hc
          rcases List.mem_append.mp hc with hc | hc
          · obtain ⟨hb1, hb2, hb3⟩ := hg4 c hc
            exact ⟨hb1, hb2, gridGet_gridSet_mono _ _ _ _ _ hb3⟩
          · rw [List.mem_singleton] at hc
            subst hc
            exact ⟨hv, hh, gridSet_self _ _ _⟩
        have hgood := good_add_dup st ⟨hg1, hg2, hg3, hg4⟩
          (placeRandomDup { localTransform := t, parent := p, isDup := true } v h)
          origId hs (by rw [hsp]; exact hp) ho hod (by rw [hsp]; exact hpar)
          (gridSet st.grid v h) r' (st.cellLog ++ [(v, h)]) hnodup hbounds
        obtain ⟨hgf, tail, hext⟩ := ih (i + 1) _ st' hgood
          (parentOk_mono st _ _ rfl _ hp)
          (by simp only [List.length_append, List.length_singleton]; omega)
          (by rw [entAt_ext st _ _ rfl origId ho]; exact hod)
          (by rw [entAt_ext st _ _ rfl origId ho]; exact hpar)
          hrun
        refine ⟨hgf, [placeRandomDup
            { localTransform := t, parent := p, isDup := true } v h] ++ tail, ?_⟩
        rw [hext]
        simp
    · -- linear placement
      obtain ⟨hg1, hg2, hg3, hg4⟩ := hg
      have hs : (placeLinearDup
          { localTransform := t, parent := p, isDup := true } i s).isDup
            = true := rfl
      have hsp : (placeLinearDup
          { localTransform := t, parent := p, isDup := true } i s).parent
            = p := rfl
      have hgood : Good { st with
          entities := st.entities ++
            [placeLinearDup ({ localTransform := t, parent := p, isDup := true }) i s],
          dupLog := st.dupLog ++ [(st.entities.length, origId)] } := by
        have := good_add_dup st ⟨hg1, hg2, hg3, hg4⟩
          (placeLinearDup { localTransform := t, parent := p, isDup := true } i s)
          origId hs (by rw [hsp]; exact hp) ho hod (by rw [hsp]; exact hpar)
          st.grid st.ridx st.cellLog hg3 hg4
        exact this
      obtain ⟨hgf, tail, hext⟩ := ih (i + 1) _ st' hgood
        (parentOk_mono st _ _ rfl _ hp)
        (by simp only [List.length_append, List.length_singleton]; omega)
        (by rw [entAt_ext st _ _ rfl origId ho]; exact hod)
        (by rw [entAt_ext st _ _ rfl origId ho]; exact hpar)
        hrun
      refine ⟨hgf, [placeLinearDup
          ({ localTransform := t, parent := p, isDup := true }) i s] ++ tail, ?_⟩
      rw [hext]
      simp

mutual

/-- One entity-loop iteration of `World::deserialize` preserves the
invariant and only appends entities. -/
lemma deserializeEntity_good (rng : ℕ → ℕ) (fuel : ℕ) (d : EntityDesc)
    (p : Option ℕ) (st st' : DState) (hg : Good st) (hp : ParentOk st p)
    (hrun : deserializeEntity rng fuel d p st = some st') :
    Good st' ∧ ∃ tail, st'.entities = st.entities ++ tail := by
  cases d with
  | mk t ch dup =>
    obtain ⟨hgood1, hpid⟩ := good_add_orig st hg
      { localTransform := t, parent := p } rfl hp
    have hp1 : ParentOk { st with entities := st.entities ++
        [{ localTransform := t, parent := p }] } p :=
      parentOk_mono st _ _ rfl _ hp
    have horig : entAt { st with entities := st.entities ++
        [{ localTransform := t, parent := p }] } st.entities.length =
          { localTransform := t, parent := p } := by
      simp only [entAt]
      exact getD_append_length _ _ _
    cases ch with
    | none =>
      cases dup with
      | none =>
        simp only [deserializeEntity, Option.some_inj] at hrun
        subst hrun
        exact ⟨hgood1, [{ localTransform := t, parent := p }], rfl⟩
      | some trip =>
        obtain ⟨c, s, r⟩ := trip
        simp only [deserializeEntity] at hrun
        obtain ⟨hgf, tail, hext⟩ := dupLoop_good rng fuel t p
          st.entities.length s (decide (r ≠ 0)) ((truncQ c).toNat - 1) 1 _ st'
          hgood1 hp1 (by simp) (by rw [horig]) (by rw [horig]) hrun
        exact ⟨hgf, [{ localTransform := t, parent := p }] ++ tail,
          by rw [hext]; simp⟩
    | some cs =>
      cases dup with
      | none =>
        simp only [deserializeEntity] at hrun
        cases hres : deserializeList rng fuel cs (some st.entities.length)
          { st with entities := st.entities ++
            [{ localTransform := t, parent := p }] } with
        | none =>
          rw [hres] at hrun
          simp at hrun
        | some st2 =>
          rw [hres] at hrun
          simp only [Option.some_inj] at hrun
          subst hrun
          obtain ⟨hg2, tail2, hext2⟩ := deserializeList_good rng fuel cs
            (some st.entities.length) _ st2 hgood1 hpid hres
          exact ⟨hg2, [{ localTransform := t, parent := p }] ++ tail2,
            by rw [hext2]; simp⟩
      | some trip =>
        obtain ⟨c, s, r⟩ := trip
        simp only [deserializeEntity] at hrun
        cases hres : deserializeList rng fuel cs (some st.entities.length)
          { st with entities := st.entities ++
            [{ localTransform := t, parent := p }] } with
        | none =>
          rw [hres] at hrun
          simp at hrun
        | some st2 =>
          rw [hres] at hrun
          simp only at hrun
          obtain ⟨hg2, tail2, hext2⟩ := deserializeList_good rng fuel cs
            (some st.entities.length) _ st2 hgood1 hpid hres
          have horig2 : entAt st2 st.entities.length =
              { localTransform := t, parent := p } := by
            rw [entAt_ext _ st2 tail2 hext2 st.entities.length (by simp), horig]
          obtain ⟨hgf, tail3, hext3⟩ := dupLoop_good rng fuel t p
            st.entities.length s (decide (r ≠ 0)) ((truncQ c).toNat - 1) 1 st2
            st' hg2 (parentOk_mono _ st2 tail2 hext2 _ hp1)
            (by rw [hext2]; simp only [List.length_append, List.length_singleton]
                omega)
            (by rw [horig2]) (by rw [horig2]) hrun
          refine ⟨hgf, [{ localTransform := t, parent := p }] ++ tail2 ++ tail3, ?_⟩
          rw [hext3, hext2]
          simp

/-- `World::deserialize` on a description list preserves the invariant and
only appends entities. -/
lemma deserializeList_good (rng : ℕ → ℕ) (fuel : ℕ) (ds : List EntityDesc)
    (p : Option ℕ) (st st' : DState) (hg : Good st) (hp : ParentOk st p)
    (hrun : deserializeList rng fuel ds p st = some st') :
    Good st' ∧ ∃ tail, st'.entities = st.entities ++ tail := by
  cases ds with
  | nil =>
    simp only [deserializeList, Option.some_inj] at hrun
    subst hrun
    exact ⟨hg, [], by simp⟩
  | cons d rest =>
    simp only [deserializeList] at hrun
    cases hres : deserializeEntity rng fuel d p st with
    | none =>
      rw [hres] at hrun
      simp at hrun
    | some stm =>
      rw [hres] at hrun
      simp only at hrun
      obtain ⟨hg1, tail1, hext1⟩ := deserializeEntity_good rng fuel d p st stm
        hg hp hres
      obtain ⟨hg2, tail2, hext2⟩ := deserializeList_good rng fuel rest p stm
        st' hg1 (parentOk_mono st stm tail1 hext1 p hp) hrun
      exact ⟨hg2, tail1 ++ tail2, by rw [hext2, hext1, List.append_assoc]⟩

end

lemma good_dInit : Good dInit := by
  refine ⟨?_, ?_, ?_, ?_⟩ <;> simp [dInit]

lemma parentOk_dInit : ParentOk dInit none := fun i hi => by simp at hi

/-- C10: in any deserialization run from a fresh world, every logged
duplicate has its parent pointer equal to its original's parent pointer (the
parent argument in scope, not the original itself), and no created entity
has a duplicate as its parent — so duplicates are created without children
even when the original description has a `children` key. -/
theorem duplicates_parent_no_children (rng : ℕ → ℕ) (fuel : ℕ)
    (ds : List EntityDesc) (st' : DState)
    (hrun : deserializeList rng fuel ds none dInit = some st') :
    (∀ pr ∈ st'.dupLog,
      (entAt st' pr.1).isDup = true ∧
      (entAt st' pr.1).parent = (entAt st' pr.2).parent ∧
      (entAt st' pr.2).isDup = false) ∧
    (∀ e ∈ st'.entities, ∀ pr ∈ st'.dupLog, e.parent ≠ some pr.1) := by
  obtain ⟨⟨hg1, hg2, _, _⟩, _⟩ := deserializeList_good rng fuel ds none dInit
    st' good_dInit parentOk_dInit hrun
  constructor
  · intro pr hpr
    obtain ⟨_, _, hc, hd', heq⟩ := hg2 pr hpr
    exact ⟨hc, heq, hd'⟩
  · intro e he pr hpr hpar
    obtain ⟨_, _, hc, _, _⟩ := hg2 pr hpr
    obtain ⟨_, hdupf⟩ := hg1 e he pr.1 hpar
    rw [hc] at hdupf
    exact absurd hdupf (by simp)

/-- C5: the random duplicate placement offsets x by `-row * SLICE_SIZE` and
sets z to `-7.5 + column * 2.5`; the rejection-sampling pick always returns
an unoccupied in-bounds cell (row < 400, column < 7); and in any
deserialization run from a fresh world the assigned cells are pairwise
distinct, in bounds, and marked occupied in the final grid. -/
theorem duplicates_random_cells (rng : ℕ → ℕ) (fuel : ℕ)
    (ds : List EntityDesc) (st' : DState)
    (hrun : deserializeList rng fuel ds none dInit = some st') :
    (∀ e v h, (placeRandomDup e v h).localTransform.position.x =
        e.localTransform.position.x + (-(v : ℚ)) * 13 ∧
      (placeRandomDup e v h).localTransform.position.z =
        -7.5 + (h : ℚ) * 2.5) ∧
    (∀ grid fuel2 ridx v h r',
      pickCell rng grid fuel2 ridx = some (v, h, r') →
      gridGet grid v h = false ∧ v < 400 ∧ h < 7) ∧
    st'.cellLog.Nodup ∧
    (∀ c ∈ st'.cellLog, c.1 < 400 ∧ c.2 < 7 ∧
      gridGet st'.grid c.1 c.2 = true) := by
  obtain ⟨⟨_, _, h3, h4⟩, _⟩ := deserializeList_good rng fuel ds none dInit
    st' good_dInit parentOk_dInit hrun
  exact ⟨fun e v h => ⟨rfl, rfl⟩,
    fun grid fuel2 ridx v h r' hp => pickCell_spec rng grid fuel2 ridx v h r' hp,
    h3, h4⟩

/-- Witness for C10 on a description with both children and duplicates. -/
theorem duplicates_parent_no_children_witness :
    ∃ st', deserializeList rngId 5 [dChildDup] none dInit = some st' ∧
      (∀ pr ∈ st'.dupLog,
        (entAt st' pr.1).isDup = true ∧
        (entAt st' pr.1).parent = (entAt st' pr.2).parent ∧
        (entAt st' pr.2).isDup = false) ∧
      (∀ e ∈ st'.entities, ∀ pr ∈ st'.dupLog, e.parent ≠ some pr.1) := by
  have hk : (truncQ 2).toNat = 2 := by norm_num [truncQ]; rfl
  have h0 : (decide ((0 : ℚ) ≠ 0)) = false := by simp
  have hsome : ∃ st', deserializeList rngId 5 [dChildDup] none dInit
      = some st' := by
    simp [deserializeList, deserializeEntity, dChildDup, dSimple, dupLoop,
      dInit, hk, h0]
  obtain ⟨st', hst⟩ := hsome
  exact ⟨st', hst, duplicates_parent_no_children rngId 5 [dChildDup] st' hst⟩

/-- Witness for C5 on a description with random duplicate placement. -/
theorem duplicates_random_cells_witness :
    ∃ st', deserializeList rngId 9 [dRandom] none dInit = some st' ∧
      st'.cellLog.Nodup ∧
      (∀ c ∈ st'.cellLog, c.1 < 400 ∧ c.2 < 7 ∧
        gridGet st'.grid c.1 c.2 = true) := by
  have hk : (truncQ 3).toNat = 3 := by norm_num [truncQ]; rfl
  have h1 : (decide ((1 : ℚ) ≠ 0)) = true := by norm_num
  have hsome : ∃ st', deserializeList rngId 9 [dRandom] none dInit
      = some st' := by
    simp [deserializeList, deserializeEntity, dRandom, dupLoop, dInit, hk, h1,
      pickCell, genRandom, rngId, gridGet, gridSet, initGrid, placeRandomDup]
  obtain ⟨st', hst⟩ := hsome
  exact ⟨st', hst, (duplicates_random_cells rngId 9 [dRandom] st' hst).2.2⟩

end PepsiMan
